import Mathlib

set_option maxHeartbeats 1000000
set_option maxRecDepth 10000

/-!
A formal model of the sysfs proof-of-concept: the `systree` crate's
attribute sets, nodes and event hub, and the `sysfs` crate's inode
layer (inode numbering, lookup, readdir, and the disallowed VFS
operations).  Machine integers (`u64`, `u8`, `usize`) are modelled as
`Nat` with explicit reduction modulo `2 ^ 64` where u64 wrap-around is
possible.  Fallible operations return `Except`; a Rust panic
(`debug_assert!`) is modelled as `Option.none`.  Definitions whose
bodies are missing from the source (`todo!()` or absent trait
implementations) are modelled from the specification and carry a doc
comment saying so.
-/

/-- Error kinds used by the inode operations (`Errno` in the source).
`EUNSPECIFIED` stands for the placeholder `Err(..)` the source writes
without naming a concrete errno (e.g. in `resize`). -/
inductive Errno where
  | ENOTDIR
  | ENOENT
  | EINVAL
  | EPERM
  | EOPNOTSUPP
  | EUNSPECIFIED
  deriving DecidableEq

/-- The modulus of 64-bit unsigned arithmetic. -/
def U64_MOD : Nat := 2 ^ 64

/-- Wrapping 64-bit addition (release-mode `u64` `+`). -/
def u64add (a b : Nat) : Nat := (a + b) % U64_MOD

/-- Wrapping 64-bit subtraction (release-mode `u64` `-`). -/
def u64sub (a b : Nat) : Nat := (a + (U64_MOD - b % U64_MOD)) % U64_MOD

/-- Attribute flag bit `CAN_READ` (`1 << 0`). -/
def CAN_READ : Nat := 1

/-- Attribute flag bit `CAN_WRITE` (`1 << 1`). -/
def CAN_WRITE : Nat := 2

/-- Attribute flag bit `IS_BINARY` (`1 << 4`). -/
def IS_BINARY : Nat := 16

/-- An attribute of a node (`SysAttr` in `src/systree/src/attr.rs`):
`id` is a `u8`, `flags` is the `SysAttrFlags` bitset (a `u8`). -/
structure SysAttr where
  id : Nat
  name : String
  flags : Nat
  deriving DecidableEq

/-- An immutable set of attributes (`SysAttrSet`).  The source stores
`this_set : Option<Box<[SysAttr]>>` and `parent_set :
Option<Arc<SysAttrSet>>`; the optional parent is split into the two
constructors here and an absent `this_set` is the empty list. -/
inductive SysAttrSet where
  | base (this_set : List SysAttr)
  | withParent (this_set : List SysAttr) (parent : SysAttrSet)
  deriving DecidableEq

def SysAttrSet.this_set : SysAttrSet → List SysAttr
  | .base t => t
  | .withParent t _ => t

def SysAttrSet.parent_set : SysAttrSet → Option SysAttrSet
  | .base _ => none
  | .withParent _ p => some p

/-- `SysAttrSet::len`: this set's length plus the parent chain's length. -/
def SysAttrSet.len : SysAttrSet → Nat
  | .base t => t.length
  | .withParent t p => t.length + p.len

/-- Modelled from the spec: `SysAttrSet::iter` is `todo!()` in
`src/systree/src/attr.rs`.  The spec fixes attribute ids as dense in
insertion order with inherited parent attributes first, so iteration
yields the parent chain's attributes followed by this set's own
attributes. -/
def SysAttrSet.iter : SysAttrSet → List SysAttr
  | .base t => t
  | .withParent t p => p.iter ++ t

/-- Modelled from the spec: `SysAttrSet::get` is `todo!()` in the
source; it looks an attribute up by name across this set and the
parent chain. -/
def SysAttrSet.get (s : SysAttrSet) (attr_name : String) : Option SysAttr :=
  s.iter.find? (fun a => a.name == attr_name)

/-- Source `SysAttrSet::contains` is `iter().find(..).is_some()` with
the predicate left syntactically incomplete; modelled from the spec as
a search by name. -/
def SysAttrSet.contains (s : SysAttrSet) (attr_name : String) : Bool :=
  (s.iter.find? (fun a => a.name == attr_name)).isSome

/-- The attribute-set builder (the source spells it `SysAttrSetBuidler`).
`total_attrs` is a `u8` counter. -/
structure SysAttrSetBuidler where
  total_attrs : Nat
  this_set : List SysAttr
  parent_set : Option SysAttrSet
  deriving DecidableEq

def SysAttrSetBuidler.new : SysAttrSetBuidler := ⟨0, [], none⟩

/-- `SysAttrSetBuidler::with_parent`; `parent.len() as u8` is the
truncating cast, hence the `% 256`. -/
def SysAttrSetBuidler.with_parent (parent : SysAttrSet) : SysAttrSetBuidler :=
  ⟨parent.len % 256, [], some parent⟩

/-- `SysAttrSetBuidler::add`.  The leading
`debug_assert!(self.total_attrs < u8::MAX)` guards the documented
capacity-breach panic and is modelled as `none`.  A name already
present in the parent set or in the set under construction leaves the
builder unchanged. -/
def SysAttrSetBuidler.add (b : SysAttrSetBuidler) (name : String) (flags : Nat) :
    Option SysAttrSetBuidler :=
  if 255 ≤ b.total_attrs then none
  else if (match b.parent_set with | some p => p.contains name | none => false) then some b
  else if b.this_set.any (fun old_attr => old_attr.name == name) then some b
  else some ⟨b.total_attrs + 1, b.this_set ++ [⟨b.total_attrs, name, flags⟩], b.parent_set⟩

/-- `SysAttrSetBuidler::build`. -/
def SysAttrSetBuidler.build (b : SysAttrSetBuidler) : SysAttrSet :=
  match b.parent_set with
  | none => .base b.this_set
  | some p => .withParent b.this_set p

/-- Runs a sequence of `add` calls, propagating the capacity panic. -/
def SysAttrSetBuidler.addAll (b : SysAttrSetBuidler) :
    List (String × Nat) → Option SysAttrSetBuidler
  | [] => some b
  | (n, f) :: rest =>
    match b.add n f with
    | none => none
    | some b2 => b2.addAll rest

/-- The three node kinds of a `SysTree` (`SysNodeType`). -/
inductive SysNodeType where
  | branch
  | leaf
  | symlink
  deriving DecidableEq

/-- A snapshot of a `SysTree` node as the sysfs layer observes it:
its immutable id (a `u64` allocated below `U64_MAX / 2`), its name,
its attribute set, and (for a branch) its current children.  This
stands for the trait objects `SysBranchNode` / `SysNode` /
`SysSymlink` of `src/systree/src/node.rs`. -/
inductive SysNode where
  | branch (id : Nat) (name : String) (attrs : SysAttrSet) (children : List SysNode)
  | leaf (id : Nat) (name : String) (attrs : SysAttrSet)
  | symlink (id : Nat) (name : String) (target_path : String)

/-- `SysObj::id` (the `SysNodeId` as a `u64`). -/
def SysNode.id : SysNode → Nat
  | .branch i _ _ _ => i
  | .leaf i _ _ => i
  | .symlink i _ _ => i

/-- `SysObj::name`. -/
def SysNode.name : SysNode → String
  | .branch _ n _ _ => n
  | .leaf _ n _ => n
  | .symlink _ n _ => n

/-- `SysObj::type_`. -/
def SysNode.type_ : SysNode → SysNodeType
  | .branch .. => .branch
  | .leaf .. => .leaf
  | .symlink .. => .symlink

/-- `SysNode::node_attrs` / `attr_set`.  Symlink nodes carry no
attribute set in the source and this accessor is never reached for
them; they are given the empty set here. -/
def SysNode.attr_set : SysNode → SysAttrSet
  | .branch _ _ s _ => s
  | .leaf _ _ s => s
  | .symlink .. => .base []

/-- The children of a branch node (the `BTreeMap` values); empty for
the other kinds. -/
def SysNode.childrenOf : SysNode → List SysNode
  | .branch _ _ _ cs => cs
  | _ => []

/-- Inserts a node into a list sorted by ascending node id. -/
def insertById (c : SysNode) : List SysNode → List SysNode
  | [] => [c]
  | d :: ds => if c.id ≤ d.id then c :: d :: ds else d :: insertById c ds

/-- Sorts nodes by ascending node id. -/
def sortById (cs : List SysNode) : List SysNode :=
  cs.foldr insertById []

/-- Modelled from the spec: `SysBranchNode::visit_children_with` has no
implementation under `src/` (only its trait declaration); the spec says
it yields each child whose id is at least `min_id`, in ascending id
order. -/
def visit_children_from (n : SysNode) (min_id : Nat) : List SysNode :=
  (sortById n.childrenOf).filter (fun c => min_id ≤ c.id)

/-- `ino::from_sysnode_id` in `src/sysfs/src/inode.rs`:
`node_id.as_u64() << ATTR_INO_SHIFT` with `ATTR_INO_SHIFT = 8`.  The
`u64` shift silently discards high bits, hence the modulus. -/
def from_sysnode_id (node_id : Nat) : Nat := node_id * 2 ^ 8 % U64_MOD

/-- `ino::from_dir_ino_and_attr_id`: `dir_ino + (attr_id as Ino)`. -/
def from_dir_ino_and_attr_id (dir_ino attr_id : Nat) : Nat :=
  (dir_ino + attr_id) % U64_MOD

/-- The inode types used by the projection (`InodeType`). -/
inductive InodeType where
  | dir
  | file
  | symlink
  deriving DecidableEq

/-- `InnerNode` of `src/sysfs/src/inode.rs`. -/
inductive InnerNode where
  | branch (n : SysNode)
  | leaf (n : SysNode)
  | attr (a : SysAttr) (n : SysNode)
  | symlink (n : SysNode)

/-- `SysFsInode`: the projection record.  Only the fields the verified
claims depend on are modelled: the inner node and the parent (the
upgraded `Weak<SysFsInode>`; `none` models a dangling or empty weak).
The immutable `metadata.ino` and `metadata.type_` are derived below
exactly as every constructor computes them. -/
inductive SysFsInode where
  | mk (inner : InnerNode) (parent : Option SysFsInode)

def SysFsInode.inner : SysFsInode → InnerNode
  | .mk x _ => x

def SysFsInode.parent : SysFsInode → Option SysFsInode
  | .mk _ p => p

/-- `ino::from_inner_node`.  For an `Attr` inode the source looks the
attribute up by name in the node's attribute set and calls `.unwrap()`
on the result; the panic case (attribute absent from the set) is
modelled with the junk value `0` and is unreachable for inodes built by
`new_attr_file`. -/
def from_inner_node : InnerNode → Nat
  | .branch n => from_sysnode_id n.id
  | .leaf n => from_sysnode_id n.id
  | .symlink n => from_sysnode_id n.id
  | .attr a n =>
    let dir_ino := from_sysnode_id n.id
    let attr_id :=
      ((n.attr_set.iter.find? (fun b => b.name == a.name)).map SysAttr.id).getD 0
    from_dir_ino_and_attr_id dir_ino attr_id

/-- `Inode::ino`: `metadata.ino`, which every constructor sets to
`ino::from_inner_node(&inner_node)`. -/
def SysFsInode.ino (i : SysFsInode) : Nat := from_inner_node i.inner

/-- `Inode::type_`: `metadata.type_`, which the constructors set to
`Dir` for branch and leaf inodes, `File` for attribute inodes and
`Symlink` for symlink inodes. -/
def SysFsInode.type_ (i : SysFsInode) : InodeType :=
  match i.inner with
  | .branch _ => .dir
  | .leaf _ => .dir
  | .attr _ _ => .file
  | .symlink _ => .symlink

/-- `new_branch_dir`: a directory inode over a child branch node, with
this inode as parent. -/
def new_branch_dir (i : SysFsInode) (n : SysNode) : SysFsInode := .mk (.branch n) (some i)

/-- `new_leaf_dir`: a directory inode over a child leaf node. -/
def new_leaf_dir (i : SysFsInode) (n : SysNode) : SysFsInode := .mk (.leaf n) (some i)

/-- `new_symlink`: a symlink inode over a child symlink node. -/
def new_symlink (i : SysFsInode) (n : SysNode) : SysFsInode := .mk (.symlink n) (some i)

/-- `new_attr_file`: a file inode over an attribute of a node. -/
def new_attr_file (i : SysFsInode) (a : SysAttr) (n : SysNode) : SysFsInode :=
  .mk (.attr a n) (some i)

/-- A directory entry (`Dentry` in `src/sysfs/src/inode.rs`). -/
structure Dentry where
  ino : Nat
  name : String
  type_ : InodeType
  deriving DecidableEq

/-- The synthetic ordering inode of the `.` dentry
(`ThisAndParentDentryIter::THIS_DENTRY_INO = u64::MAX - 2`). -/
def THIS_DENTRY_INO : Nat := U64_MOD - 3

/-- The synthetic ordering inode of the `..` dentry
(`ThisAndParentDentryIter::PARENT_DENTRY_INO = u64::MAX - 1`). -/
def PARENT_DENTRY_INO : Nat := U64_MOD - 2

/-- The ino the `..` dentry reports: the parent inode's ino, or this
inode's own ino when the parent weak reference does not upgrade. -/
def parent_ino_or_self (i : SysFsInode) : Nat :=
  ((i.parent.map SysFsInode.ino).getD i.ino)

/-- The dentries produced by `AttrDentryIter`: one `File` dentry per
attribute whose ino `dir_ino + attr.id` is at least `min_ino`, in
iteration order of the attribute set. -/
def attr_dentries (s : SysAttrSet) (dir_ino min_ino : Nat) : List Dentry :=
  s.iter.filterMap (fun a =>
    let ino := from_dir_ino_and_attr_id dir_ino a.id
    if ino < min_ino then none
    else some { ino := ino, name := a.name, type_ := .file })

/-- The dentries produced by `NodeDentryIter` from an already-collected
child list: ino `ino::from_sysnode_id(child.id)`, type `DIR` for branch
and leaf children and `SYMLINK` for symlink children. -/
def node_dentries (cs : List SysNode) : List Dentry :=
  cs.map (fun c =>
    { ino := from_sysnode_id c.id
      name := c.name
      type_ := match c.type_ with
        | .branch => .dir
        | .leaf => .dir
        | .symlink => .symlink })

/-- The children `new_dentry_iter` collects for a branch: it calls
`visit_children_with(min_ino, ..)` (passing the inode bound as the id
bound) and keeps the children with `child.id() >= min_ino`. -/
def children_for_readdir (n : SysNode) (min_ino : Nat) : List SysNode :=
  (visit_children_from n min_ino).filter (fun c => min_ino ≤ c.id)

/-- The dentries produced by `ThisAndParentDentryIter`: `.` (reported
with this directory's own ino) when `min_ino ≤ THIS_DENTRY_INO`, then
`..` (reported with the parent's ino, or this ino if unattached) when
`min_ino ≤ PARENT_DENTRY_INO`; emitting `.` advances the iterator's
bound to `PARENT_DENTRY_INO`, so `..` always follows `.`. -/
def this_and_parent_dentries (i : SysFsInode) (min_ino : Nat) : List Dentry :=
  if min_ino ≤ THIS_DENTRY_INO then
    [{ ino := i.ino, name := ".", type_ := .dir },
     { ino := parent_ino_or_self i, name := "..", type_ := .dir }]
  else if min_ino ≤ PARENT_DENTRY_INO then
    [{ ino := parent_ino_or_self i, name := "..", type_ := .dir }]
  else []

/-- `SysFsInode::new_dentry_iter`: attribute dentries, then child-node
dentries (branch only), then `.` and `..`.  In the source the leaf arm
passes `(attr_set, min_ino)` to the three-parameter
`AttrDentryIter::new`; the evidently intended `(attr_set, self.ino(),
min_ino)` is modelled.  The non-directory arm is `unreachable!()` and
modelled as the empty list. -/
def new_dentry_iter (i : SysFsInode) (min_ino : Nat) : List Dentry :=
  match i.inner with
  | .branch n =>
    attr_dentries n.attr_set i.ino min_ino
      ++ node_dentries (children_for_readdir n min_ino)
      ++ this_and_parent_dentries i min_ino
  | .leaf n =>
    attr_dentries n.attr_set i.ino min_ino
      ++ node_dentries []
      ++ this_and_parent_dentries i min_ino
  | _ => []

/-- The `while let` loop of `readdir_at`.  The visitor is modelled as a
function of the running `count` (the number of entries already
emitted) and the dentry; `false` is a visit error.  Returns `none` for
the `count == 0` early `EINVAL` return, otherwise the final `count` and
`last_dentry_ino`. -/
def readdir_loop (v : Nat → Dentry → Bool) :
    List Dentry → Nat → Nat → Option (Nat × Nat)
  | [], count, last => some (count, last)
  | d :: ds, count, last =>
    if v count d then readdir_loop v ds (count + 1) d.ino
    else if count = 0 then none else some (count, last)

/-- `Inode::readdir_at`.  `offset` is interpreted as a minimum inode
number; `last_dentry_ino` starts at `min_ino` and is updated to each
visited dentry's reported ino; the return value is
`next_call_min_ino - min_ino` in wrapping `u64` arithmetic. -/
def readdir_at (i : SysFsInode) (offset : Nat) (v : Nat → Dentry → Bool) :
    Except Errno Nat :=
  if i.type_ ≠ InodeType.dir then .error .ENOTDIR
  else
    match readdir_loop v (new_dentry_iter i offset) 0 offset with
    | none => .error .EINVAL
    | some (count, last_dentry_ino) =>
      if count = 0 then .ok 0
      else .ok (u64sub (u64add last_dentry_ino 1) offset)

/-- `SysFsInode::lookup_node_or_attr`: search the branch's children by
name first; a hit is projected per its kind; otherwise fall through to
the attribute set; otherwise `ENOENT`. -/
def lookup_node_or_attr (i : SysFsInode) (name : String) (n : SysNode) :
    Except Errno SysFsInode :=
  match n.childrenOf.find? (fun c => c.name == name) with
  | some child =>
    match child.type_ with
    | .branch => .ok (new_branch_dir i child)
    | .leaf => .ok (new_leaf_dir i child)
    | .symlink => .ok (new_symlink i child)
  | none =>
    match n.attr_set.get name with
    | some a => .ok (new_attr_file i a n)
    | none => .error .ENOENT

/-- `SysFsInode::lookup_attr`: search the node's attribute set only. -/
def lookup_attr (i : SysFsInode) (name : String) (n : SysNode) :
    Except Errno SysFsInode :=
  match n.attr_set.get name with
  | some a => .ok (new_attr_file i a n)
  | none => .error .ENOENT

/-- `Inode::lookup`.  Non-directories fail `ENOTDIR`; `.` resolves to
this inode and `..` to the parent (or this inode if the weak parent
does not upgrade); a branch searches children then attributes, a leaf
searches attributes only.  The source's final `unreachable!()` arm is
guarded by the directory check and modelled as `ENOTDIR`. -/
def lookup (i : SysFsInode) (name : String) : Except Errno SysFsInode :=
  if i.type_ ≠ InodeType.dir then .error .ENOTDIR
  else if name = "." then .ok i
  else if name = ".." then .ok (i.parent.getD i)
  else
    match i.inner with
    | .branch n => lookup_node_or_attr i name n
    | .leaf n => lookup_attr i name n
    | _ => .error .ENOTDIR

/-- `Inode::create`: `return_errno!(Errno::EOPNOTSUPP)` regardless of
arguments. -/
def create (_i : SysFsInode) (_name : String) (_type : InodeType) (_mode : Nat) :
    Except Errno SysFsInode := .error .EOPNOTSUPP

/-- `Inode::mknod`: `Err(Error::new(Errno::ENOTDIR))` regardless of
arguments. -/
def mknod (_i : SysFsInode) (_name : String) (_mode _dev : Nat) :
    Except Errno SysFsInode := .error .ENOTDIR

/-- `Inode::link`: `Err(Error::new(Errno::EPERM))`. -/
def link (_i _old : SysFsInode) (_name : String) : Except Errno Unit := .error .EPERM

/-- `Inode::unlink`: `Err(Error::new(Errno::EPERM))`. -/
def unlink (_i : SysFsInode) (_name : String) : Except Errno Unit := .error .EPERM

/-- `Inode::rename`: `Err(Error::new(Errno::EPERM))`. -/
def rename (_i : SysFsInode) (_old_name : String) (_target : SysFsInode)
    (_new_name : String) : Except Errno Unit := .error .EPERM

/-- `Inode::write_link`: `Err(Error::new(Errno::EPERM))`. -/
def write_link (_i : SysFsInode) (_target : String) : Except Errno Unit := .error .EPERM

/-- `Inode::ioctl`: `Err(Error::new(Errno::EPERM))`. -/
def ioctl (_i : SysFsInode) (_cmd _arg : Nat) : Except Errno Int := .error .EPERM

/-- `Inode::fallocate`: `Err(Error::new(Errno::EOPNOTSUPP))`. -/
def fallocate (_i : SysFsInode) (_mode _offset _len : Nat) : Except Errno Unit :=
  .error .EOPNOTSUPP

/-- `Inode::resize`: the source reads `Err(..)` without naming a
concrete errno; modelled with the `EUNSPECIFIED` placeholder. -/
def resize (_i : SysFsInode) (_new_size : Nat) : Except Errno Unit :=
  .error .EUNSPECIFIED

/-- The action of a `SysEvent` (`SysEventAction`). -/
inductive SysEventAction where
  | add
  | remove
  | change
  deriving DecidableEq

/-- A key-value pair of a `SysEvent` (`SysEventKv`). -/
structure SysEventKv where
  key : String
  value : String
  deriving DecidableEq

/-- An event in the `SysTree` (`SysEvent`): which action, on which
root-relative path, with which details. -/
structure SysEvent where
  action : SysEventAction
  path : String
  details : List SysEventKv
  deriving DecidableEq

/-- A selector for events (`SysEventSelector`): all events, or only
those of one action. -/
inductive SysEventSelector where
  | all
  | action (a : SysEventAction)
  deriving DecidableEq

/-- `EventsFilter::filter` for `SysEventSelector` in
`src/systree/src/event.rs`: `All` admits everything, `Action(a)`
admits exactly the events whose action equals `a`. -/
def SysEventSelector.filter : SysEventSelector → SysEvent → Bool
  | .all, _ => true
  | .action a, e => a == e.action

/-- A registered observer as the event hub's subject sees it: the
observer identity, whether its weak reference still upgrades, and its
selector. -/
structure ObserverEntry where
  oid : Nat
  alive : Bool
  selector : SysEventSelector
  deriving DecidableEq

/-- Modelled from the spec: `Subject::notify_observers` (an external
`ostd` collaborator): the event is delivered to every live registered
observer whose filter admits it; decayed observers are skipped. -/
def notify_observers (obs : List ObserverEntry) (e : SysEvent) :
    List (Nat × SysEvent) :=
  (obs.filter (fun o => o.alive && o.selector.filter e)).map (fun o => (o.oid, e))

/-- The parent/attachment state of a `SysObj`, as needed by `path()`:
the tree root (empty name by invariant), an unattached node whose weak
parent is unset, or a node with a parent. -/
inductive ObjInfo where
  | root (name : String)
  | orphan (name : String)
  | child (name : String) (parent : ObjInfo)

/-- Whether a node is reachable from a tree root. -/
def ObjInfo.attached : ObjInfo → Bool
  | .root _ => true
  | .orphan _ => false
  | .child _ p => p.attached

/-- Modelled from the spec: `SysObj::path` is `todo!("implement with
the parent and name methods")` in `src/systree/src/node.rs`, and
`publish_event` consumes it as an `Option` (`let Some(path) = ..`).
Per the spec an unattached node yields `None`; an attached node yields
its ancestors' names joined by `/`, the root contributing the empty
name. -/
def ObjInfo.path : ObjInfo → Option String
  | .root _ => some ""
  | .orphan _ => none
  | .child n p => p.path.map (fun pp => pp ++ "/" ++ n)

/-- The names of all ancestors of a node, root first, the node itself
last; the root contributes its empty name. -/
def ObjInfo.ancestorNames : ObjInfo → List String
  | .root _ => [""]
  | .orphan n => [n]
  | .child n p => p.ancestorNames ++ [n]

/-- Joining a list of names with `/` as the separator. -/
def slashJoined : List String → String
  | [] => ""
  | [x] => x
  | x :: xs => x ++ "/" ++ slashJoined xs

/-- `SysEventHub::publish_event`: a node with no path (not attached to
the tree) drops the event silently; otherwise the event carrying the
action, the node's path and the details is handed to the subject's
observers. -/
def publish_event (obs : List ObserverEntry) (obj : ObjInfo)
    (action : SysEventAction) (details : List SysEventKv) :
    List (Nat × SysEvent) :=
  match obj.path with
  | none => []
  | some p => notify_observers obs { action := action, path := p, details := details }

/-- Well-formedness of a built attribute set, as the spec states it:
names are unique across the whole chain, ids are dense from 0 in
iteration order, and the capacity guard bounds the size by 255. -/
def WFSet (s : SysAttrSet) : Prop :=
  (s.iter.map SysAttr.name).Nodup ∧
  s.iter.map SysAttr.id = List.range s.len ∧
  s.len ≤ 255

instance (s : SysAttrSet) : Decidable (WFSet s) := by
  unfold WFSet; infer_instance

/-- The builder invariant tying the running `total_attrs` counter to
the set the builder would build. -/
def WFB (b : SysAttrSetBuidler) : Prop :=
  WFSet b.build ∧ b.total_attrs = b.build.len

/-! Concrete sample data for the closed theorems below. -/

/-- The default dentry used with `List.getD`. -/
def dentry_default : Dentry := ⟨0, "", .file⟩

/-- A root branch node with id 0, attributes `x` (id 0, readable and
writable) and `y` (id 1, readable), and no children: the directory of
the spec's first concrete readdir scenario. -/
def rootNodeC1 : SysNode := .branch 0 "" (.base [⟨0, "x", 3⟩, ⟨1, "y", 1⟩]) []

/-- The root directory inode over `rootNodeC1` (no parent, as built by
`SysFsInode::new_root`). -/
def rootInodeC1 : SysFsInode := .mk (.branch rootNodeC1) none

/-- A visitor that accepts every entry. -/
def acceptAll : Nat → Dentry → Bool := fun _ _ => true

/-- A branch node with id 1 (directory ino 256), one attribute `x`
(id 0) and one child leaf `c` with id 2 (node ino 512). -/
def nodeC2 : SysNode := .branch 1 "b" (.base [⟨0, "x", 1⟩]) [.leaf 2 "c" (.base [])]

/-- The directory inode over `nodeC2`. -/
def inodeC2 : SysFsInode := .mk (.branch nodeC2) none

/-- The child leaf of `nodeC2`, with node id `2 ^ 56`: a legal id
(below the allocator's `U64_MAX / 2` bound) whose node ino wraps to 0. -/
def childC4 : SysNode := .leaf (2 ^ 56) "c" (.base [])

/-- A branch node with id 0 and an attribute with id 0 whose attribute
ino collides with `childC4`'s node ino under u64 wrap-around. -/
def nodeC4c : SysNode := .branch 0 "b" (.base [⟨0, "x", 1⟩]) [childC4]

/-- A small well-formed branch node for the amended inode-number
claim: id 1, attributes `x` (id 0) and `y` (id 1), child leaf id 2. -/
def nodeC4w : SysNode := .branch 1 "b" (.base [⟨0, "x", 3⟩, ⟨1, "y", 1⟩]) [.leaf 2 "c" (.base [])]

/-- A branch node with id 1 and a single attribute `x` (id 0). -/
def nodeC5 : SysNode := .branch 1 "b" (.base [⟨0, "x", 1⟩]) []

/-- The directory inode over `nodeC5` (ino 256). -/
def inodeC5 : SysFsInode := .mk (.branch nodeC5) none

/-- A visitor that accepts the first entry and rejects every later
one. -/
def vC5 : Nat → Dentry → Bool := fun count _ => count == 0

/-- A leaf node `net` with id 2 and attribute `mtu` (id 0). -/
def netNode : SysNode := .leaf 2 "net" (.base [⟨0, "mtu", 3⟩])

/-- A branch node `b` with id 1, one attribute `bx` (id 0) and the
child `netNode`. -/
def branchB : SysNode := .branch 1 "b" (.base [⟨0, "bx", 1⟩]) [netNode]

/-- The directory inode over `branchB`. -/
def inodeB : SysFsInode := .mk (.branch branchB) none

/-- The attribute-file inode for `bx` under `inodeB` (a
non-directory). -/
def attrInodeB : SysFsInode := new_attr_file inodeB ⟨0, "bx", 1⟩ branchB

/-- Three registered observers: a live one selecting `Add`, a live one
selecting `Remove`, and a decayed one selecting everything. -/
def obsC7 : List ObserverEntry :=
  [⟨1, true, .action .add⟩, ⟨2, true, .action .remove⟩, ⟨3, false, .all⟩]

/-- A node attached at `/sys/devices/a`. -/
def objC7 : ObjInfo := .child "a" (.child "devices" (.child "sys" (.root "")))

/-- An unattached node. -/
def orphanC7 : ObjInfo := .orphan "loose"

/-- The event published on `objC7` in the sample scenario. -/
def evC7 : SysEvent := ⟨.add, "/sys/devices/a", [⟨"KEY", "V"⟩]⟩

/-- A one-attribute parent set (`k`, id 0), as the builder builds it. -/
def pW : SysAttrSet := .base [⟨0, "k", 1⟩]

/-- A builder run inheriting `pW`: a fresh name, a name duplicating the
parent set, and a name duplicating the set under construction. -/
def addsW : List (String × Nat) := [("a", 1), ("k", 1), ("a", 2)]

/-- The builder state that the run `addsW` from `with_parent pW`
produces. -/
def bW : SysAttrSetBuidler := ⟨2, [⟨1, "a", 1⟩], some pW⟩

/-- A full parent set: 255 attributes with dense ids and pairwise
distinct single-character names, exactly the shape a builder run over
255 fresh names produces.  Inheriting it leaves the builder's `u8`
counter at 255, the capacity-assert threshold. -/
def pBig : SysAttrSet :=
  .base ((List.range 255).map (fun i => ⟨i, String.mk [Char.ofNat (65 + i)], 1⟩))

/-- The first character of a string as a code point (projection used
to decide name uniqueness of `pBig` cheaply). -/
def firstCharNat (s : String) : Nat := (s.data.headD 'A').toNat

/-- A small reachable builder state: `new` after `add("x", CAN_READ)`. -/
def bSmall : SysAttrSetBuidler := ⟨1, [⟨0, "x", 1⟩], none⟩

/-! The theorems.  Shared helper lemmas come first, then one theorem
per claim (with its witness or counterexample where applicable). -/

/-- C1.  Code-bug evidence for the readdir offset contract.  On the
spec's own scenario (root branch, id 0, attributes `x` id 0 and `y`
id 1, no children, offset 0, a visitor accepting everything) the call
emits all four dentries `x`, `y`, `.`, `..`, but because
`last_dentry_ino` is updated from the reported ino of each dentry (0
for `..`, the root's own ino) rather than its ordering inode
(`U64_MAX - 1`), the call returns `0 + 1 - 0 = 1` instead of an
increment summing with the offset to `U64_MAX`; the follow-up call at
offset `0 + 1` then reports `y`, `.` and `..` again, breaking the
advertised no-duplicate guarantee. -/
theorem c1_readdir_offset_contract_broken :
    readdir_at rootInodeC1 0 acceptAll = .ok 1 ∧
    (1 : Nat) ≠ 2 ^ 64 - 1 ∧
    readdir_loop acceptAll (new_dentry_iter rootInodeC1 0) 0 0 = some (4, 0) ∧
    (new_dentry_iter rootInodeC1 0).map Dentry.name = ["x", "y", ".", ".."] ∧
    (new_dentry_iter rootInodeC1 1).map Dentry.name = ["y", ".", ".."] :=
  ⟨rfl, by decide, rfl, rfl, rfl⟩

/-- C2.  Code-bug evidence for the enumeration filter.  `nodeC2` is a
branch with directory ino 256, one attribute (ino 256) and one child
with node id 2 and ordering inode `2 << 8 = 512`.  With
`min_ino = 300` (between the attribute range and the child range) the
claim requires the child to be emitted since `512 ≥ 300`, but
`new_dentry_iter` filters children by the raw node id
(`child.id() >= min_ino`, i.e. `2 ≥ 300`), so only `.` and `..` come
out. -/
theorem c2_child_filtered_by_id_not_ino :
    (new_dentry_iter inodeC2 300).map Dentry.name = [".", ".."] ∧
    SysFsInode.ino inodeC2 = 256 ∧
    (new_dentry_iter inodeC2 300).map Dentry.ino = [256, 256] ∧
    (∃ c ∈ nodeC2.childrenOf, c.name = "c" ∧ from_sysnode_id c.id = 512) ∧
    300 ≤ 512 :=
  ⟨rfl, rfl, rfl, by decide, by norm_num⟩

/-- C4 counterexample.  Node ids are `u64` values allocated up to
`U64_MAX / 2`, and `ino_of_node` shifts them by 8 in wrapping `u64`
arithmetic, so the branch `nodeC4c` (id 0) with attribute id 0 and the
child `childC4` (id `2 ^ 56`, a legal id below `2 ^ 63`) yield
`ino_of_attr(ino_of_node(b), 0) = 0 = ino_of_node(c)`: the claimed
distinctness fails without a bound on node ids. -/
theorem c4_attr_child_ino_collision :
    nodeC4c.childrenOf = [childC4] ∧
    SysNode.id nodeC4c ≠ SysNode.id childC4 ∧
    SysNode.id childC4 ≤ 2 ^ 63 ∧
    (∃ a ∈ nodeC4c.attr_set.iter, a.id = 0) ∧
    from_dir_ino_and_attr_id (from_sysnode_id (SysNode.id nodeC4c)) 0 =
      from_sysnode_id (SysNode.id childC4) :=
  ⟨rfl, by decide, by decide, by decide, by decide⟩

/-- C6 counterexample.  `mknod` fails with `ENOTDIR`, not with the
`NOT_SUPPORTED` kind (`EOPNOTSUPP`) the claim assigns to it (and
`link`, `unlink`, `rename` likewise return `EPERM`). -/
theorem c6_mknod_errno_not_eopnotsupp :
    mknod inodeC5 "a" 0 0 = .error .ENOTDIR ∧
    Errno.ENOTDIR ≠ Errno.EOPNOTSUPP ∧
    link inodeC5 inodeC5 "a" = .error .EPERM ∧
    Errno.EPERM ≠ Errno.EOPNOTSUPP :=
  ⟨rfl, by decide, rfl, by decide⟩

/-- C6 as amended: the operations are rejected regardless of their
arguments, but with the errnos the code actually picks: `create` and
`fallocate` fail `EOPNOTSUPP`, `mknod` fails `ENOTDIR`, `link`,
`unlink`, `rename`, `write_link` and `ioctl` fail `EPERM`, and
`resize` fails with an errno the source leaves unwritten.  None of
them touches any state (they are constant error returns). -/
theorem c6_amended_disallowed_ops (i t : SysFsInode) (name old_name new_name target : String)
    (ty : InodeType) (mode dev cmd arg m o l ns : Nat) :
    create i name ty mode = .error .EOPNOTSUPP ∧
    mknod i name mode dev = .error .ENOTDIR ∧
    link i t name = .error .EPERM ∧
    unlink i name = .error .EPERM ∧
    rename i old_name t new_name = .error .EPERM ∧
    write_link i target = .error .EPERM ∧
    ioctl i cmd arg = .error .EPERM ∧
    fallocate i m o l = .error .EOPNOTSUPP ∧
    resize i ns = .error .EUNSPECIFIED :=
  ⟨rfl, rfl, rfl, rfl, rfl, rfl, rfl, rfl, rfl⟩

/-- When the node id stays below `2 ^ 56`, the shift in
`from_sysnode_id` does not wrap. -/
theorem node_ino_of_small (nid : Nat) (h : nid < 2 ^ 56) :
    from_sysnode_id nid = nid * 256 := by
  unfold from_sysnode_id U64_MOD
  have hlt : nid * 2 ^ 8 < 2 ^ 64 := by
    calc nid * 2 ^ 8 < 2 ^ 56 * 2 ^ 8 :=
          mul_lt_mul_of_pos_right h (by norm_num)
      _ = 2 ^ 64 := by norm_num
  rw [Nat.mod_eq_of_lt hlt]
  norm_num

/-- When the node id stays below `2 ^ 56` and the attribute id is a
`u8`, the attribute ino is the plain sum `node_id * 256 + attr_id`. -/
theorem attr_ino_of_small (nid aid : Nat) (h1 : nid < 2 ^ 56) (h2 : aid < 256) :
    from_dir_ino_and_attr_id (from_sysnode_id nid) aid = nid * 256 + aid := by
  rw [node_ino_of_small nid h1]
  unfold from_dir_ino_and_attr_id U64_MOD
  have hlt : nid * 256 + aid < 2 ^ 64 := by
    have h3 : nid * 256 + 256 ≤ 2 ^ 56 * 256 := by
      have : nid + 1 ≤ 2 ^ 56 := h1
      calc nid * 256 + 256 = (nid + 1) * 256 := by ring
        _ ≤ 2 ^ 56 * 256 := Nat.mul_le_mul_right 256 this
    omega
  rw [Nat.mod_eq_of_lt hlt]

/-- C4 as amended: `ino_of_node` is the 8-bit left shift of the node id
in wrapping u64 arithmetic and is always a multiple of 256, and
`ino_of_attr` adds the attribute id to the directory ino; provided the
node ids lie below `2 ^ 56` (so the shift cannot wrap), the attribute
inos of a branch are pairwise distinct and distinct from every child's
node ino. -/
theorem c4_amended_ino_scheme (n : SysNode)
    (hid : n.id < 2 ^ 56)
    (hch : ∀ c ∈ n.childrenOf, c.id < 2 ^ 56 ∧ c.id ≠ n.id)
    (hattr : ∀ a ∈ n.attr_set.iter, a.id < 256)
    (hnodup : (n.attr_set.iter.map SysAttr.id).Nodup) :
    from_sysnode_id n.id = n.id * 2 ^ 8 % U64_MOD ∧
    from_sysnode_id n.id % 256 = 0 ∧
    (∀ d a, from_dir_ino_and_attr_id d a = (d + a) % U64_MOD) ∧
    (n.attr_set.iter.map (fun a =>
      from_dir_ino_and_attr_id (from_sysnode_id n.id) a.id)).Nodup ∧
    (∀ a ∈ n.attr_set.iter, ∀ c ∈ n.childrenOf,
      from_dir_ino_and_attr_id (from_sysnode_id n.id) a.id ≠
        from_sysnode_id c.id) := by
  refine ⟨rfl, ?_, fun d a => rfl, ?_, ?_⟩
  · unfold from_sysnode_id U64_MOD
    rw [Nat.mod_mod_of_dvd _ (by norm_num : (256 : Nat) ∣ 2 ^ 64)]
    simp [Nat.mul_mod_left]
  · have hinj := List.inj_on_of_nodup_map hnodup
    refine (List.Nodup.of_map SysAttr.id hnodup).map_on ?_
    intro x hx y hy hxy
    rw [attr_ino_of_small n.id x.id hid (hattr x hx),
      attr_ino_of_small n.id y.id hid (hattr y hy)] at hxy
    exact hinj hx hy (by omega)
  · intro a ha c hc
    obtain ⟨hc1, hc2⟩ := hch c hc
    rw [attr_ino_of_small n.id a.id hid (hattr a ha), node_ino_of_small c.id hc1]
    have := hattr a ha
    intro heq
    omega

/-- C4 witness: the amended inode-number claim instantiated on the
small branch `nodeC4w` (id 1, attribute ids 0 and 1, child id 2). -/
theorem c4_amended_witness :
    (SysNode.id nodeC4w < 2 ^ 56 ∧ (nodeC4w.attr_set.iter.map SysAttr.id).Nodup) ∧
    from_sysnode_id (SysNode.id nodeC4w) % 256 = 0 ∧
    (nodeC4w.attr_set.iter.map (fun a =>
      from_dir_ino_and_attr_id (from_sysnode_id (SysNode.id nodeC4w)) a.id)).Nodup ∧
    (∀ a ∈ nodeC4w.attr_set.iter, ∀ c ∈ nodeC4w.childrenOf,
      from_dir_ino_and_attr_id (from_sysnode_id (SysNode.id nodeC4w)) a.id ≠
        from_sysnode_id (SysNode.id c)) := by
  have h := c4_amended_ino_scheme nodeC4w (by decide) (by decide) (by decide) (by decide)
  exact ⟨⟨by decide, by decide⟩, h.2.1, h.2.2.2.1, h.2.2.2.2⟩

/-- Behaviour of the `readdir_at` visit loop when a visitor accepts
the first `k` dentries and rejects the next: the loop stops with count
`c + k` and, unless nothing was consumed from this list, with the
reported ino of the last accepted dentry. -/
theorem readdir_loop_reject (v : Nat → Dentry → Bool) :
    ∀ (ds : List Dentry) (k c l : Nat), k < ds.length →
      (∀ j, j < k → v (c + j) (ds.getD j dentry_default) = true) →
      v (c + k) (ds.getD k dentry_default) = false →
      0 < c + k →
      readdir_loop v ds c l =
        some (c + k, if k = 0 then l else (ds.getD (k - 1) dentry_default).ino) := by
  intro ds
  induction ds with
  | nil =>
    intro k c l hk
    simp at hk
  | cons d ds ih =>
    intro k c l hk hacc hrej hpos
    by_cases hk0 : k = 0
    · subst hk0
      have hvd : v c d = false := by simpa using hrej
      have hc : ¬(c = 0) := by omega
      simp [readdir_loop, hvd, hc]
    · have hvd : v c d = true := by
        have := hacc 0 (by omega)
        simpa using this
      have hk1 : k - 1 + 1 = k := by omega
      have hlen : k - 1 < ds.length := by
        simp only [List.length_cons] at hk
        omega
      have hacc2 : ∀ j, j < k - 1 → v (c + 1 + j) (ds.getD j dentry_default) = true := by
        intro j hj
        have := hacc (j + 1) (by omega)
        rw [List.getD_cons_succ] at this
        have harith : c + (j + 1) = c + 1 + j := by omega
        rwa [harith] at this
      have hrej2 : v (c + 1 + (k - 1)) (ds.getD (k - 1) dentry_default) = false := by
        have harith : c + k = c + 1 + (k - 1) := by omega
        rw [harith] at hrej
        rwa [show k = k - 1 + 1 from hk1.symm, List.getD_cons_succ] at hrej
        
      have hrec := ih (k - 1) (c + 1) d.ino hlen hacc2 hrej2 (by omega)
      simp only [readdir_loop, hvd, if_true]
      rw [hrec]
      have harith : c + 1 + (k - 1) = c + k := by omega
      rw [harith]
      by_cases hk2 : k = 1
      · subst hk2
        simp
      · have hgt : ¬(k - 1 = 0) := by omega
        rw [if_neg hgt, if_neg hk0]
        have : (d :: ds).getD (k - 1) dentry_default = ds.getD (k - 2) dentry_default := by
          rw [show k - 1 = (k - 2) + 1 by omega, List.getD_cons_succ]
        rw [this, show k - 2 = k - 1 - 1 by omega]

/-- C5 as amended: on a directory, if the visitor rejects the very
first entry the call returns `EINVAL`; if it rejects a later entry
(entry `k`, having accepted the first `k`), the call stops and returns
the ino increment `(last accepted dentry's reported ino + 1) -
min_ino` in wrapping u64 arithmetic — not the count of entries
emitted. -/
theorem c5_amended_readdir_rejection (i : SysFsInode) (offset : Nat)
    (v : Nat → Dentry → Bool) (k : Nat)
    (hdir : i.type_ = .dir)
    (hk : k < (new_dentry_iter i offset).length)
    (hacc : ∀ j, j < k → v j ((new_dentry_iter i offset).getD j dentry_default) = true)
    (hrej : v k ((new_dentry_iter i offset).getD k dentry_default) = false) :
    (k = 0 → readdir_at i offset v = .error .EINVAL) ∧
    (0 < k → readdir_at i offset v =
      .ok (u64sub
        (u64add (((new_dentry_iter i offset).getD (k - 1) dentry_default).ino) 1)
        offset)) := by
  unfold readdir_at
  rw [if_neg (by simp [hdir])]
  constructor
  · intro hk0
    subst hk0
    cases hds : new_dentry_iter i offset with
    | nil =>
      rw [hds] at hk
      simp at hk
    | cons d ds =>
      rw [hds] at hrej
      have hvd : v 0 d = false := by simpa using hrej
      simp [hds, readdir_loop, hvd]
  · intro hkpos
    have hacc2 : ∀ j, j < k →
        v (0 + j) ((new_dentry_iter i offset).getD j dentry_default) = true := by
      intro j hj
      simpa using hacc j hj
    have hrej2 : v (0 + k) ((new_dentry_iter i offset).getD k dentry_default) = false := by
      simpa using hrej
    have hloop := readdir_loop_reject v (new_dentry_iter i offset) k 0 offset hk
      hacc2 hrej2 (by omega)
    rw [hloop]
    have hne : ¬(0 + k = 0) := by omega
    have hne2 : ¬(k = 0) := by omega
    simp [hne, hne2]

/-- C5 counterexample.  On the directory inode over `nodeC5` (dir ino
256, one attribute `x` with ino 256), a visitor accepting the first
entry and rejecting the second makes `readdir_at(0, v)` stop after
exactly one successfully emitted entry, yet the call returns
`256 + 1 - 0 = 257`, not the claimed count `1`. -/
theorem c5_return_is_increment_not_count :
    readdir_loop vC5 (new_dentry_iter inodeC5 0) 0 0 = some (1, 256) ∧
    readdir_at inodeC5 0 vC5 = .ok 257 ∧
    (257 : Nat) ≠ 1 :=
  ⟨rfl, rfl, by decide⟩

/-- C5 witness: the amended rejection behaviour instantiated on
`inodeC5` with the accept-then-reject visitor `vC5` (rejection at
entry 1 yields `ok 257`) and with an always-rejecting visitor
(rejection at entry 0 yields `EINVAL`). -/
theorem c5_amended_witness :
    SysFsInode.type_ inodeC5 = .dir ∧
    readdir_at inodeC5 0 vC5 = .ok 257 ∧
    readdir_at inodeC5 0 (fun _ _ => false) = .error .EINVAL := by
  have h1 := c5_amended_readdir_rejection inodeC5 0 vC5 1 rfl (by decide)
    (by decide) (by decide)
  have h2 := c5_amended_readdir_rejection inodeC5 0 (fun _ _ => false) 0 rfl (by decide)
    (by decide) (by decide)
  exact ⟨rfl, h1.2 (by decide), h2.1 rfl⟩

/-- C3: the lookup protocol.  A non-directory inode fails `ENOTDIR`;
on a directory, `.` resolves to the inode itself and `..` to its
parent (or itself if unattached); a branch inode searches children by
name first, projecting a hit as a branch directory, leaf directory or
symlink inode by kind, then its attribute set, projecting a hit as an
attribute file inode; a leaf inode searches only its attribute set;
with no match the result is `ENOENT`. -/
theorem c3_lookup_protocol (i : SysFsInode) (name : String) :
    (i.type_ ≠ .dir → lookup i name = .error .ENOTDIR) ∧
    (i.type_ = .dir → lookup i "." = .ok i ∧ lookup i ".." = .ok (i.parent.getD i)) ∧
    (∀ n, i.inner = .branch n → name ≠ "." → name ≠ ".." →
      (∀ c, n.childrenOf.find? (fun c2 => c2.name == name) = some c →
        lookup i name = .ok (match c.type_ with
          | .branch => new_branch_dir i c
          | .leaf => new_leaf_dir i c
          | .symlink => new_symlink i c)) ∧
      (n.childrenOf.find? (fun c2 => c2.name == name) = none →
        (∀ a, n.attr_set.get name = some a → lookup i name = .ok (new_attr_file i a n)) ∧
        (n.attr_set.get name = none → lookup i name = .error .ENOENT))) ∧
    (∀ n, i.inner = .leaf n → name ≠ "." → name ≠ ".." →
      (∀ a, n.attr_set.get name = some a → lookup i name = .ok (new_attr_file i a n)) ∧
      (n.attr_set.get name = none → lookup i name = .error .ENOENT)) ∧
    (∀ c, (new_branch_dir i c).type_ = .dir ∧ (new_leaf_dir i c).type_ = .dir ∧
      (new_symlink i c).type_ = .symlink ∧ (new_branch_dir i c).parent = some i ∧
      (new_leaf_dir i c).parent = some i ∧ (new_symlink i c).parent = some i) ∧
    (∀ a n2, (new_attr_file i a n2).type_ = .file ∧ (new_attr_file i a n2).parent = some i) := by
  refine ⟨?_, ?_, ?_, ?_, ?_, ?_⟩
  · intro ht
    simp [lookup, ht]
  · intro ht
    constructor
    · simp [lookup, ht]
    · rw [lookup, if_neg (by simp [ht]), if_neg (by decide), if_pos rfl]
  · intro n hin hdot hddot
    have ht : i.type_ = .dir := by simp [SysFsInode.type_, hin]
    have hbody : lookup i name = lookup_node_or_attr i name n := by
      rw [lookup, if_neg (by simp [ht]), if_neg hdot, if_neg hddot, hin]
    constructor
    · intro c hc
      rw [hbody]
      unfold lookup_node_or_attr
      rw [hc]
      cases c <;> rfl
    · intro hc
      constructor
      · intro a ha
        rw [hbody]
        unfold lookup_node_or_attr
        rw [hc, ha]
      · intro ha
        rw [hbody]
        unfold lookup_node_or_attr
        rw [hc, ha]
  · intro n hin hdot hddot
    have ht : i.type_ = .dir := by simp [SysFsInode.type_, hin]
    have hbody : lookup i name = lookup_attr i name n := by
      rw [lookup, if_neg (by simp [ht]), if_neg hdot, if_neg hddot, hin]
    constructor
    · intro a ha
      rw [hbody]
      unfold lookup_attr
      rw [ha]
    · intro ha
      rw [hbody]
      unfold lookup_attr
      rw [ha]
  · intro c
    exact ⟨rfl, rfl, rfl, rfl, rfl, rfl⟩
  · intro a n2
    exact ⟨rfl, rfl⟩

/-- C3 witness: the lookup protocol instantiated on the branch `b`
(ino 256) with child leaf `net` (id 2) and attribute `bx`, and on the
leaf directory for `net` with attribute `mtu`: lookups of `.`, `..`,
a child, an attribute, an absent name, and a lookup on a non-directory
inode. -/
theorem c3_lookup_witness :
    SysFsInode.type_ attrInodeB ≠ .dir ∧
    lookup attrInodeB "net" = .error .ENOTDIR ∧
    Except.map SysFsInode.ino (lookup inodeB ".") = .ok 256 ∧
    Except.map SysFsInode.ino (lookup inodeB "..") = .ok 256 ∧
    Except.map SysFsInode.ino (lookup inodeB "net") = .ok 512 ∧
    Except.map SysFsInode.type_ (lookup inodeB "net") = .ok .dir ∧
    Except.map SysFsInode.ino (lookup (new_leaf_dir inodeB netNode) "mtu") = .ok 512 ∧
    Except.map SysFsInode.type_ (lookup (new_leaf_dir inodeB netNode) "mtu") = .ok .file ∧
    Except.map SysFsInode.ino (lookup inodeB "bx") = .ok 256 ∧
    lookup inodeB "zzz" = .error .ENOENT := by
  refine ⟨by decide, ?_, ?_, ?_, ?_, ?_, ?_, ?_, ?_, ?_⟩
  · exact (c3_lookup_protocol attrInodeB "net").1 (by decide)
  · rw [((c3_lookup_protocol inodeB "anything").2.1 rfl).1]
    rfl
  · rw [((c3_lookup_protocol inodeB "anything").2.1 rfl).2]
    rfl
  · rw [((c3_lookup_protocol inodeB "net").2.2.1 branchB rfl (by decide) (by decide)).1
      netNode rfl]
    rfl
  · rw [((c3_lookup_protocol inodeB "net").2.2.1 branchB rfl (by decide) (by decide)).1
      netNode rfl]
    rfl
  · rw [(((c3_lookup_protocol (new_leaf_dir inodeB netNode) "mtu").2.2.2.1 netNode rfl
      (by decide) (by decide)).1 ⟨0, "mtu", 3⟩ rfl)]
    rfl
  · rw [(((c3_lookup_protocol (new_leaf_dir inodeB netNode) "mtu").2.2.2.1 netNode rfl
      (by decide) (by decide)).1 ⟨0, "mtu", 3⟩ rfl)]
    rfl
  · rw [(((c3_lookup_protocol inodeB "bx").2.2.1 branchB rfl (by decide) (by decide)).2
      rfl).1 ⟨0, "bx", 1⟩ rfl]
    rfl
  · exact (((c3_lookup_protocol inodeB "zzz").2.2.1 branchB rfl (by decide) (by decide)).2
      rfl).2 rfl

/-- C7: publishing an event.  A node with no path (not attached to the
tree) publishes nothing; otherwise the event carrying the action, the
node's root-relative path and the details is delivered exactly to the
live observers whose selector admits it; the `All` selector admits
every event and `Action a` admits exactly the events with action
`a`. -/
theorem c7_publish_event (obs : List ObserverEntry) (obj : ObjInfo)
    (action : SysEventAction) (details : List SysEventKv) :
    (obj.path = none → publish_event obs obj action details = []) ∧
    (∀ p, obj.path = some p →
      ∀ oid e, (oid, e) ∈ publish_event obs obj action details ↔
        (e = ⟨action, p, details⟩ ∧
         ∃ o ∈ obs, o.oid = oid ∧ o.alive = true ∧ o.selector.filter e = true)) ∧
    (∀ e, SysEventSelector.filter .all e = true) ∧
    (∀ a e, SysEventSelector.filter (.action a) e = true ↔ e.action = a) := by
  refine ⟨?_, ?_, fun e => rfl, ?_⟩
  · intro hp
    simp [publish_event, hp]
  · intro p hp oid e
    rw [publish_event, hp]
    unfold notify_observers
    constructor
    · intro hmem
      rw [List.mem_map] at hmem
      obtain ⟨o, ho, heq⟩ := hmem
      rw [List.mem_filter] at ho
      obtain ⟨ho1, ho2⟩ := ho
      have h1 : o.oid = oid := congrArg Prod.fst heq
      have h2 : ({ action := action, path := p, details := details } : SysEvent) = e :=
        congrArg Prod.snd heq
      rw [Bool.and_eq_true] at ho2
      subst h2
      exact ⟨rfl, o, ho1, h1, ho2.1, ho2.2⟩
    · rintro ⟨he, o, ho, hoid, halive, hfilter⟩
      subst he
      rw [List.mem_map]
      refine ⟨o, List.mem_filter.mpr ⟨ho, ?_⟩, ?_⟩
      · rw [Bool.and_eq_true]
        exact ⟨halive, hfilter⟩
      · rw [hoid]
  · intro a e
    constructor
    · intro h
      have := of_decide_eq_true (by simpa [SysEventSelector.filter] using h)
      exact this.symm
    · intro h
      simp [SysEventSelector.filter, h]

/-- C7 witness: on the node attached at `/sys/devices/a`, an `Add`
event with details `KEY=V` reaches exactly the live observer
registered for `Add` (not the `Remove` observer, not the decayed one),
while the unattached node publishes nothing. -/
theorem c7_publish_witness :
    ObjInfo.path objC7 = some "/sys/devices/a" ∧
    publish_event obsC7 orphanC7 .add [⟨"KEY", "V"⟩] = [] ∧
    publish_event obsC7 objC7 .add [⟨"KEY", "V"⟩] = [(1, evC7)] ∧
    (1, evC7) ∈ publish_event obsC7 objC7 .add [⟨"KEY", "V"⟩] := by
  refine ⟨rfl, (c7_publish_event obsC7 orphanC7 .add [⟨"KEY", "V"⟩]).1 rfl, rfl, ?_⟩
  exact ((c7_publish_event obsC7 objC7 .add [⟨"KEY", "V"⟩]).2.1 "/sys/devices/a" rfl
    1 evC7).mpr ⟨rfl, ⟨1, true, .action .add⟩, by decide, rfl, rfl, rfl⟩

/-- Joining a non-empty name list and then appending one more name is
the same as appending the name with a `/` separator. -/
theorem slashJoined_append_one (xs : List String) (n : String) (h : xs ≠ []) :
    slashJoined (xs ++ [n]) = slashJoined xs ++ "/" ++ n := by
  induction xs with
  | nil => exact absurd rfl h
  | cons x xs ih =>
    cases xs with
    | nil => rfl
    | cons y ys =>
      have hne : y :: ys ≠ [] := by simp
      calc slashJoined ((x :: y :: ys) ++ [n])
          = x ++ "/" ++ slashJoined ((y :: ys) ++ [n]) := rfl
        _ = x ++ "/" ++ (slashJoined (y :: ys) ++ "/" ++ n) := by rw [ih hne]
        _ = (x ++ "/" ++ slashJoined (y :: ys)) ++ "/" ++ n := by
            simp [String.append_assoc]

/-- The ancestor-name chain of a node is never empty. -/
theorem ancestorNames_ne_nil (o : ObjInfo) : o.ancestorNames ≠ [] := by
  cases o <;> simp [ObjInfo.ancestorNames]

/-- C9: the path of a node.  An unattached node has no path; an
attached node's path is the `/`-joined list of its ancestors' names
(root first, the node itself last), the root's empty name contributing
the leading `/`: every attached non-root node's path starts with
`/`. -/
theorem c9_path_of_node (o : ObjInfo) :
    (o.attached = false → o.path = none) ∧
    (o.attached = true → o.path = some (slashJoined o.ancestorNames)) ∧
    (o.attached = true → ∀ n p, o = .child n p → ∃ s, o.path = some ("/" ++ s)) := by
  induction o with
  | root name =>
    refine ⟨by simp [ObjInfo.attached], fun _ => rfl, ?_⟩
    intro _ n p h
    exact absurd h (by simp)
  | orphan name =>
    refine ⟨fun _ => rfl, ?_, ?_⟩
    · intro h
      exact Bool.noConfusion h
    · intro h
      exact Bool.noConfusion h
  | child name p ih =>
    have hatt : (ObjInfo.child name p).attached = p.attached := rfl
    refine ⟨?_, ?_, ?_⟩
    · intro h
      rw [hatt] at h
      rw [ObjInfo.path, ih.1 h]
      rfl
    · intro h
      rw [hatt] at h
      rw [ObjInfo.path, ih.2.1 h]
      rw [ObjInfo.ancestorNames,
        slashJoined_append_one p.ancestorNames name (ancestorNames_ne_nil p)]
      rfl
    · intro h _ _ _
      rw [hatt] at h
      cases hp : p with
      | root pname =>
        exact ⟨name, rfl⟩
      | orphan pname =>
        rw [hp] at h
        exact Bool.noConfusion h
      | child pname pp =>
        rw [hp] at ih h
        obtain ⟨s, hs⟩ := ih.2.2 h pname pp rfl
        refine ⟨s ++ "/" ++ name, ?_⟩
        rw [ObjInfo.path, hs]
        exact congrArg some (by simp [String.append_assoc])

/-- C9 witness: the node attached at `/sys/devices/a` yields exactly
that path (its ancestor chain joined by `/`, with a leading slash),
and the unattached node yields `None`. -/
theorem c9_path_witness :
    ObjInfo.attached objC7 = true ∧
    ObjInfo.path objC7 = some (slashJoined (ObjInfo.ancestorNames objC7)) ∧
    ObjInfo.path objC7 = some "/sys/devices/a" ∧
    ObjInfo.path orphanC7 = none := by
  refine ⟨rfl, (c9_path_of_node objC7).2.1 rfl, ?_, (c9_path_of_node orphanC7).1 rfl⟩
  rw [(c9_path_of_node objC7).2.1 rfl]
  rfl

/-- A name-keyed `find?` over attributes succeeds exactly when the
name occurs among the attribute names. -/
theorem find_name_isSome_iff (l : List SysAttr) (n : String) :
    (l.find? (fun a => a.name == n)).isSome = true ↔ n ∈ l.map SysAttr.name := by
  induction l with
  | nil => simp
  | cons a l ih =>
    by_cases h : a.name = n
    · simp [List.find?_cons, h]
    · have hstep : (a :: l).find? (fun x => x.name == n) = l.find? (fun x => x.name == n) :=
        List.find?_cons_of_neg _ (by simp [h])
      rw [hstep, ih, List.map_cons]
      constructor
      · intro hm
        exact List.mem_cons.mpr (Or.inr hm)
      · intro hm
        rcases List.mem_cons.mp hm with he | hm2
        · exact absurd he.symm h
        · exact hm2

/-- `SysAttrSet::contains` succeeds exactly when the name occurs in
the iteration. -/
theorem contains_iff_mem (s : SysAttrSet) (n : String) :
    s.contains n = true ↔ n ∈ s.iter.map SysAttr.name :=
  find_name_isSome_iff s.iter n

/-- The builder-side duplicate scan succeeds exactly when the name
occurs among the pending attribute names. -/
theorem any_name_iff_mem (l : List SysAttr) (n : String) :
    (l.any (fun a => a.name == n)) = true ↔ n ∈ l.map SysAttr.name := by
  rw [List.any_eq_true]
  constructor
  · rintro ⟨a, ha, he⟩
    exact List.mem_map.mpr ⟨a, ha, by simpa using he⟩
  · intro hm
    obtain ⟨a, ha, he⟩ := List.mem_map.mp hm
    exact ⟨a, ha, by simp [he]⟩

/-- Iteration enumerates exactly `len` attributes. -/
theorem iter_length_eq_len (s : SysAttrSet) : s.iter.length = s.len := by
  induction s with
  | base t => rfl
  | withParent t p ih =>
    simp [SysAttrSet.iter, SysAttrSet.len, ih]
    omega

/-- What a builder's `build` iterates: the parent chain's attributes
followed by the pending ones. -/
theorem build_iter (b : SysAttrSetBuidler) :
    b.build.iter =
      (match b.parent_set with | some p => p.iter | none => []) ++ b.this_set := by
  rcases b with ⟨t, ts, ps⟩
  cases ps <;> rfl

/-- The length of a builder's `build`. -/
theorem build_len (b : SysAttrSetBuidler) :
    b.build.len =
      b.this_set.length + (match b.parent_set with | some p => p.len | none => 0) := by
  rcases b with ⟨t, ts, ps⟩
  cases ps with
  | none => simp [SysAttrSetBuidler.build, SysAttrSet.len]
  | some p => rfl

/-- One successful `add` preserves the builder invariant, never
removes a name, and guarantees the added name is present afterwards
(either it was already there — the silent no-op — or it was
appended with the next dense id). -/
theorem add_preserves (b b2 : SysAttrSetBuidler) (n : String) (f : Nat)
    (h : b.add n f = some b2) (hb : WFB b) :
    WFB b2 ∧
    (∀ x, x ∈ b.build.iter.map SysAttr.name → x ∈ b2.build.iter.map SysAttr.name) ∧
    n ∈ b2.build.iter.map SysAttr.name := by
  unfold SysAttrSetBuidler.add at h
  by_cases h1 : 255 ≤ b.total_attrs
  · rw [if_pos h1] at h
    exact absurd h (by simp)
  · rw [if_neg h1] at h
    by_cases h2 : (match b.parent_set with | some p => p.contains n | none => false) = true
    · rw [if_pos h2] at h
      have hb2 : b2 = b := (Option.some.inj h).symm
      subst hb2
      refine ⟨hb, fun x hx => hx, ?_⟩
      cases hps : b2.parent_set with
      | none => rw [hps] at h2; exact absurd h2 (by simp)
      | some p =>
        rw [hps] at h2
        have hmem : n ∈ p.iter.map SysAttr.name := (contains_iff_mem p n).mp h2
        have hbi : b2.build.iter = p.iter ++ b2.this_set := by
          rw [build_iter b2, hps]
        rw [hbi, List.map_append]
        exact List.mem_append.mpr (Or.inl hmem)
    · rw [if_neg h2] at h
      by_cases h3 : b.this_set.any (fun a => a.name == n) = true
      · rw [if_pos h3] at h
        have hb2 : b2 = b := (Option.some.inj h).symm
        subst hb2
        refine ⟨hb, fun x hx => hx, ?_⟩
        have hmem : n ∈ b2.this_set.map SysAttr.name := (any_name_iff_mem _ n).mp h3
        rw [build_iter b2, List.map_append]
        exact List.mem_append.mpr (Or.inr hmem)
      · rw [if_neg h3] at h
        have hb2 : b2 = ⟨b.total_attrs + 1,
            b.this_set ++ [⟨b.total_attrs, n, f⟩], b.parent_set⟩ :=
          (Option.some.inj h).symm
        subst hb2
        obtain ⟨⟨hnames, hids, hlen⟩, htot⟩ := hb
        have hnotin : n ∉ b.build.iter.map SysAttr.name := by
          rw [build_iter b, List.map_append]
          intro habs
          rcases List.mem_append.mp habs with hin | hin
          · cases hps : b.parent_set with
            | none => rw [hps] at hin; exact absurd hin (by simp)
            | some p =>
              rw [hps] at hin
              have hcon : p.contains n = true := (contains_iff_mem p n).mpr hin
              rw [hps] at h2
              exact h2 hcon
          · exact h3 ((any_name_iff_mem _ n).mpr hin)
        have hbi2 : (SysAttrSetBuidler.build ⟨b.total_attrs + 1,
            b.this_set ++ [⟨b.total_attrs, n, f⟩], b.parent_set⟩).iter =
            b.build.iter ++ [⟨b.total_attrs, n, f⟩] := by
          rw [build_iter, build_iter, List.append_assoc]
        have hbl2 : (SysAttrSetBuidler.build ⟨b.total_attrs + 1,
            b.this_set ++ [⟨b.total_attrs, n, f⟩], b.parent_set⟩).len =
            b.build.len + 1 := by
          rw [build_len, build_len]
          simp only [List.length_append, List.length_cons, List.length_nil]
          omega
        refine ⟨⟨⟨?_, ?_, ?_⟩, ?_⟩, ?_, ?_⟩
        · rw [hbi2, List.map_append, List.nodup_append]
          refine ⟨hnames, List.nodup_singleton _, ?_⟩
          intro x hx hx2
          simp only [List.map_cons, List.map_nil, List.mem_cons, List.not_mem_nil,
            or_false] at hx2
          subst hx2
          exact hnotin hx
        · rw [hbi2, List.map_append, hids, hbl2, List.range_succ, htot]
          simp
        · rw [hbl2]
          omega
        · show b.total_attrs + 1 = _
          rw [hbl2, htot]
        · intro x hx
          rw [hbi2, List.map_append]
          exact List.mem_append.mpr (Or.inl hx)
        · rw [hbi2, List.map_append]
          exact List.mem_append.mpr (Or.inr (by simp))

/-- A whole sequence of successful `add` calls preserves the builder
invariant, keeps every earlier name, and ends with every added name
present. -/
theorem addAll_preserves (l : List (String × Nat)) :
    ∀ b b2, b.addAll l = some b2 → WFB b →
      WFB b2 ∧
      (∀ x, x ∈ b.build.iter.map SysAttr.name → x ∈ b2.build.iter.map SysAttr.name) ∧
      (∀ nf ∈ l, nf.1 ∈ b2.build.iter.map SysAttr.name) := by
  induction l with
  | nil =>
    intro b b2 h hb
    have hb2 : b2 = b := (Option.some.inj h).symm
    subst hb2
    exact ⟨hb, fun x hx => hx, by simp⟩
  | cons nf rest ih =>
    obtain ⟨nn, ff⟩ := nf
    intro b b2 h hb
    rw [SysAttrSetBuidler.addAll] at h
    cases hadd : b.add nn ff with
    | none => rw [hadd] at h; exact absurd h (by simp)
    | some b3 =>
      rw [hadd] at h
      obtain ⟨hb3, hmono, hmem⟩ := add_preserves b b3 nn ff hadd hb
      obtain ⟨hw, hmono2, hall⟩ := ih b3 b2 h hb3
      refine ⟨hw, fun x hx => hmono2 x (hmono x hx), ?_⟩
      rintro ⟨n2, f2⟩ hnf
      rcases List.mem_cons.mp hnf with he | hm
      · have : n2 = nn := congrArg Prod.fst he
        subst this
        exact hmono2 n2 hmem
      · exact hall ⟨n2, f2⟩ hm

/-- The fresh builder satisfies the invariant. -/
theorem wfb_new : WFB SysAttrSetBuidler.new :=
  ⟨by decide, rfl⟩

/-- A builder inheriting a well-formed parent set satisfies the
invariant: the `u8` cast of the parent length is lossless because the
parent holds at most 255 attributes. -/
theorem wfb_with_parent (p : SysAttrSet) (hp : WFSet p) :
    WFB (SysAttrSetBuidler.with_parent p) := by
  obtain ⟨hn, hi, hl⟩ := hp
  have hmod : p.len % 256 = p.len := Nat.mod_eq_of_lt (by omega)
  have hiter : (SysAttrSetBuidler.with_parent p).build.iter = p.iter := by
    rw [build_iter]
    simp [SysAttrSetBuidler.with_parent]
  have hlen : (SysAttrSetBuidler.with_parent p).build.len = p.len := by
    rw [build_len]
    simp [SysAttrSetBuidler.with_parent]
  refine ⟨⟨?_, ?_, ?_⟩, ?_⟩
  · rw [hiter]; exact hn
  · rw [hiter, hlen]; exact hi
  · rw [hlen]; exact hl
  · show p.len % 256 = _
    rw [hmod, hlen]

/-- C8: any attribute set obtained by running the builder (fresh, or
inheriting a well-formed parent set) and calling `build` has pairwise
distinct names across the built set and the inherited parent chain,
dense ids assigned from 0 in insertion order, at most 256 attributes,
an iteration enumerating exactly `len()` attributes, and a succeeding
`get` for every name that was added. -/
theorem c8_built_attr_set (parent : Option SysAttrSet) (adds : List (String × Nat))
    (b : SysAttrSetBuidler)
    (hp : ∀ p, parent = some p → WFSet p)
    (hrun : (match parent with
      | none => SysAttrSetBuidler.new
      | some p => SysAttrSetBuidler.with_parent p).addAll adds = some b) :
    (b.build.iter.map SysAttr.name).Nodup ∧
    b.build.iter.map SysAttr.id = List.range b.build.len ∧
    b.build.len ≤ 256 ∧
    b.build.iter.length = b.build.len ∧
    (∀ nf ∈ adds, (b.build.get nf.1).isSome = true) := by
  have hgen : ∀ (q : Option SysAttrSet), (∀ p, q = some p → WFSet p) →
      WFB (match q with
        | none => SysAttrSetBuidler.new
        | some p => SysAttrSetBuidler.with_parent p) := by
    intro q hq
    cases q with
    | none => exact wfb_new
    | some p => exact wfb_with_parent p (hq p rfl)
  have hinit := hgen parent hp
  obtain ⟨⟨hn, hi, hl⟩, _⟩ := (addAll_preserves adds _ b hrun hinit).1
  have hall := (addAll_preserves adds _ b hrun hinit).2.2
  refine ⟨hn, hi, by omega, iter_length_eq_len _, ?_⟩
  intro nf hnf
  exact (find_name_isSome_iff b.build.iter nf.1).mpr (hall nf hnf)

/-- C8 witness: inheriting the one-attribute parent set `pW` and
adding `a`, then `k` (already in the parent set), then `a` again
(already pending) produces the builder state `bW`; the built set has
unique names, dense ids 0 and 1, two attributes in total, and `get`
succeeds for every added name. -/
theorem c8_built_attr_set_witness :
    WFSet pW ∧
    (SysAttrSetBuidler.with_parent pW).addAll addsW = some bW ∧
    ((bW.build.iter.map SysAttr.name).Nodup ∧
     bW.build.iter.map SysAttr.id = List.range bW.build.len ∧
     bW.build.len ≤ 256 ∧
     bW.build.iter.length = bW.build.len ∧
     (∀ nf ∈ addsW, (bW.build.get nf.1).isSome = true)) := by
  refine ⟨by decide, by decide, ?_⟩
  exact c8_built_attr_set (some pW) addsW bW
    (fun p hpp => by cases hpp; decide) (by decide)

/-- C10 as amended: as long as the builder's `u8` counter is below the
capacity assert threshold 255, `add` with a name already present in
the inherited parent set or in the set under construction is a silent
no-op — the builder (pending list, counter, parent) is returned
unchanged, so the first insertion's id and flags win.  At exactly 255
the `debug_assert!` fires first, even for a duplicate (see the
counterexample). -/
theorem c10_amended_duplicate_add_is_noop (b : SysAttrSetBuidler) (name : String)
    (flags : Nat)
    (hcap : b.total_attrs < 255)
    (hdup : ((match b.parent_set with | some p => p.contains name | none => false) ||
      b.this_set.any (fun a => a.name == name)) = true) :
    b.add name flags = some b := by
  unfold SysAttrSetBuidler.add
  rw [if_neg (by omega)]
  rw [Bool.or_eq_true] at hdup
  rcases hdup with h | h
  · rw [if_pos h]
  · by_cases h2 : (match b.parent_set with | some p => p.contains name | none => false) = true
    · rw [if_pos h2]
    · rw [if_neg h2, if_pos h]

/-- C10 counterexample.  `pBig` is a well-formed 255-attribute set
(the largest a debug build can produce); inheriting it leaves
`total_attrs` at 255, and then `add("A", ..)` with `"A"` already
present in the parent set hits the leading
`debug_assert!(total_attrs < u8::MAX)` and panics instead of being a
silent no-op. -/
theorem c10_duplicate_add_panics_at_capacity :
    WFSet pBig ∧
    pBig.contains "A" = true ∧
    (SysAttrSetBuidler.with_parent pBig).total_attrs = 255 ∧
    (SysAttrSetBuidler.with_parent pBig).add "A" 1 = none := by
  refine ⟨⟨List.Nodup.of_map firstCharNat ?_, by decide, by decide⟩,
    by decide, by decide, by decide⟩
  decide

/-- C10 witness: on the one-attribute builder `bSmall` (reached from
`new` by `add("x", CAN_READ)`), a second `add("x", CAN_WRITE)` returns
the very same builder state: nothing is appended, the counter stays at
1, and `x` keeps id 0 and its original flags. -/
theorem c10_amended_witness :
    SysAttrSetBuidler.new.add "x" 1 = some bSmall ∧
    bSmall.total_attrs < 255 ∧
    ((match bSmall.parent_set with | some p => p.contains "x" | none => false) ||
      bSmall.this_set.any (fun a => a.name == "x")) = true ∧
    bSmall.add "x" 2 = some bSmall := by
  refine ⟨by decide, by decide, by decide, ?_⟩
  exact c10_amended_duplicate_add_is_noop bSmall "x" 2 (by decide) (by decide)
